import Mathlib

/-!
Shallow embedding of the Rust benchmark client (src/clients/rust/src/main.rs)
of the grpc-rest-benchmark repository, together with proofs about its
statistics engine, load-driver timeline, sample-channel drain, stream worker,
and duration parsing.

Conventions of the embedding:
* `Duration` values are modelled as natural numbers of nanoseconds.
* `Instant` values are modelled as natural numbers of nanoseconds since an
  arbitrary origin; `Instant::duration_since` saturates at zero, which is
  truncated subtraction on `Nat`.
* `f64` statistics (`throughput`) are modelled over `ℚ`; the percentile index
  `((p / 100.0) * len as f64) as usize` is modelled as the rational floor
  followed by `Int.toNat`, which matches Rust's saturating float-to-usize cast
  for non-negative and negative values alike.
* Fallible operations return `Option` (`None` is Rust's `Err`).
-/

/-- One observed invocation of the operation: `struct Sample` (main.rs:79-83).
`latency` is a `Duration` in nanoseconds. -/
structure Sample where
  latency : Nat
  success : Bool
deriving DecidableEq, Repr

/-- The record of one benchmark execution: `struct Results` (main.rs:85-92). -/
structure Results where
  samples : List Sample
  start_time : Option Nat
  end_time : Option Nat
  cpu_samples : List ℚ
  mem_samples : List Nat
deriving Repr

namespace Results

/-- Method `Results::add_sample` (main.rs:103-105): push one sample. -/
def add_sample (r : Results) (s : Sample) : Results :=
  { r with samples := r.samples ++ [s] }

/-- Method `Results::success_count` (main.rs:107-109): count of successful samples. -/
def success_count (r : Results) : Nat :=
  r.samples.countP (fun s => s.success)

/-- Method `Results::error_count` (main.rs:111-113): count of failed samples. -/
def error_count (r : Results) : Nat :=
  r.samples.countP (fun s => !s.success)

/-- Method `Results::latencies` (main.rs:115-121): latencies of successful samples,
in original order. -/
def latencies (r : Results) : List Nat :=
  (r.samples.filter (fun s => s.success)).map (fun s => s.latency)

/-- Method `Results::percentile` (main.rs:123-131): sort the successful latencies
ascending, return zero on empty, else index at `(p / 100) * len` truncated,
clamped to the last valid index. -/
def percentile (r : Results) (p : ℚ) : Nat :=
  let lats := r.latencies
  if lats.isEmpty then 0
  else
    let sorted := lats.insertionSort (· ≤ ·)
    let idx := (Int.floor ((p / 100) * (lats.length : ℚ))).toNat
    sorted.getD (min idx (lats.length - 1)) 0

/-- Method `Results::avg_latency` (main.rs:133-140): zero on empty, else the sum of
successful latencies divided by their count (truncating division, as Rust's
`Duration / u32`). -/
def avg_latency (r : Results) : Nat :=
  let lats := r.latencies
  if lats.isEmpty then 0
  else lats.sum / lats.length

/-- Method `Results::min_latency` (main.rs:142-144): minimum successful latency, or
zero when there is none. -/
def min_latency (r : Results) : Nat :=
  (r.latencies.minimum).untop' 0

/-- Method `Results::max_latency` (main.rs:146-148): maximum successful latency, or
zero when there is none. -/
def max_latency (r : Results) : Nat :=
  (r.latencies.maximum).unbot' 0

/-- Method `Results::throughput` (main.rs:150-162): `success_count` divided by the
run window in seconds; zero when a timestamp is unset or the window is not
positive.  `end.duration_since(start)` saturates at zero, i.e. truncated
`Nat` subtraction. -/
def throughput (r : Results) : ℚ :=
  match r.start_time, r.end_time with
  | some startT, some endT =>
      let duration : ℚ := ((endT - startT : Nat) : ℚ) / 1000000000
      if 0 < duration then (r.success_count : ℚ) / duration else 0
  | _, _ => 0

end Results

/-!
## Load-driver timeline

`run_grpc_balance` (main.rs:361-456), `run_rest_balance` (main.rs:458-541) and
`run_grpc_stream` (main.rs:543-650) share one sequential driver skeleton:

1. create the channel, set the run flag, spawn the resource monitor;
2. `results.start_time = Some(Instant::now())`;
3. spawn the workers and drop the driver's sender;
4. `tokio::time::sleep(duration).await` — the clock advances by `duration`;
5. clear the run flag;
6. drain the channel (`while let Some(sample) = rx.recv().await`) — the clock
   advances by however long the drain takes;
7. `results.end_time = Some(Instant::now())`;
8. copy the monitor's cpu/mem samples.

The concurrent environment is abstracted into `RunEnv`: the wall-clock origin,
the wall-clock time the drain loop consumes, the samples the drain loop
collects, and the monitor's readings.  The three functions below transcribe
the driver's statement order against an explicit clock.
-/

/-- Abstract observables of one driver execution: start instant `t0`,
wall-clock time consumed by the drain loop, samples collected by the drain
loop, and the resource monitor's readings. -/
structure RunEnv where
  t0 : Nat
  drainTime : Nat
  drained : List Sample
  cpu : List ℚ
  mem : List Nat

/-- Driver timeline of `run_grpc_balance` (main.rs:361-456): `start_time` is
recorded before the duration sleep (line 395), the drain loop runs after the
sleep (lines 447-449), and `end_time` is recorded after the drain (line 451). -/
def run_grpc_balance (duration : Nat) (env : RunEnv) : Results :=
  let startInstant := env.t0
  let afterSleep := startInstant + duration
  let afterDrain := afterSleep + env.drainTime
  { samples := env.drained
    start_time := some startInstant
    end_time := some afterDrain
    cpu_samples := env.cpu
    mem_samples := env.mem }

/-- Driver timeline of `run_rest_balance` (main.rs:458-541): same skeleton,
`start_time` at line 491, drain at lines 532-534, `end_time` at line 536. -/
def run_rest_balance (duration : Nat) (env : RunEnv) : Results :=
  let startInstant := env.t0
  let afterSleep := startInstant + duration
  let afterDrain := afterSleep + env.drainTime
  { samples := env.drained
    start_time := some startInstant
    end_time := some afterDrain
    cpu_samples := env.cpu
    mem_samples := env.mem }

/-- Driver timeline of `run_grpc_stream` (main.rs:543-650): same skeleton,
`start_time` at line 576, drain at lines 641-643, `end_time` at line 645. -/
def run_grpc_stream (duration : Nat) (env : RunEnv) : Results :=
  let startInstant := env.t0
  let afterSleep := startInstant + duration
  let afterDrain := afterSleep + env.drainTime
  { samples := env.drained
    start_time := some startInstant
    end_time := some afterDrain
    cpu_samples := env.cpu
    mem_samples := env.mem }

/-!
## Sample channel: send, receive, drain

The workers and the drain loop communicate over a bounded mpsc channel
(main.rs:368, 435, 447-449).  The state of the communication is: the samples
each worker still has to send, the channel's buffered samples (FIFO), and the
samples the drain loop has collected.  A step is one worker send or one
`rx.recv()`.  The channel closes once every pending list is exhausted (all
senders dropped, main.rs:440) and the buffer is empty, which is when the
drain loop's `recv` returns `None`.
-/

/-- State of the sample channel: per-worker samples not yet sent, the FIFO
buffer, and the samples collected by the drain loop. -/
structure ChanState where
  pending : List (List Sample)
  buffer : List Sample
  collected : List Sample

/-- One scheduling step: a worker sends its next sample into the buffer
(`tx.send(...)`, main.rs:435), or the drain loop receives the oldest buffered
sample (`rx.recv()`, main.rs:447-449). -/
inductive ChanStep : ChanState → ChanState → Prop
  | send (st : ChanState) (i : Nat) (s : Sample) (rest : List Sample)
      (h : st.pending.get? i = some (s :: rest)) :
      ChanStep st ⟨st.pending.set i rest, st.buffer ++ [s], st.collected⟩
  | recv (st : ChanState) (s : Sample) (buf : List Sample)
      (h : st.buffer = s :: buf) :
      ChanStep st ⟨st.pending, buf, st.collected ++ [s]⟩

/-- Reachability by any interleaving of channel steps. -/
def ChanReach : ChanState → ChanState → Prop :=
  Relation.ReflTransGen ChanStep

/-- The channel is closed and drained: every worker has sent everything it
produced and the buffer is empty, so `rx.recv()` returns `None` and the
drain loop exits. -/
def ChanState.drainDone (st : ChanState) : Prop :=
  st.pending.all List.isEmpty = true ∧ st.buffer = []

instance (st : ChanState) : Decidable st.drainDone := by
  unfold ChanState.drainDone; infer_instance

/-!
## Stream worker

Inner event loop of a `run_grpc_stream` worker (main.rs:614-630): each
`stream.next()` outcome is `Some(Ok(_))` (emit a sample whose latency is the
gap since the previous event, with `success: true`), `Some(Err(_))` (break
without emitting), or `None` (break).  An event is modelled as the instant at
which it arrives together with its `Ok`/`Err` payload; the worker's loop then
maps the observed event sequence to the samples it sends.
-/

/-- Samples sent by one stream worker (main.rs:614-630), given the instant of
the previous event and the sequence of `stream.next()` outcomes it observes
while the run flag stays set: `none` is a closed stream, `Except.error` a
stream error; both end the loop without emitting. -/
def streamWorkerSamples : Nat → List (Option (Except Unit Nat)) → List Sample
  | _, [] => []
  | lastEvent, some (Except.ok t) :: rest =>
      { latency := t - lastEvent, success := true } :: streamWorkerSamples t rest
  | _, some (Except.error _) :: _ => []
  | _, none :: _ => []

/-!
## Duration parsing

`parse_duration` (main.rs:214-228): trim Unicode whitespace; if the string
ends in
`"ms"`, strip every trailing `"ms"` and parse the rest as `u64` milliseconds;
else if it ends in `'s'`, strip every trailing `'s'` and parse seconds; else
if it ends in `'m'`, strip every trailing `'m'` and parse minutes
(`val * 60` seconds, `u64` multiplication, which wraps in release builds);
otherwise fail.  Strings are modelled as `List Char`; the result is the
`Duration` in nanoseconds, `none` on error.
-/

/-- Rust `char::is_whitespace`: the Unicode `White_Space` property, i.e.
U+0009 to U+000D, U+0020, U+0085, U+00A0, U+1680, U+2000 to U+200A, U+2028,
U+2029, U+202F, U+205F and U+3000. -/
def rustIsWhitespace (c : Char) : Bool :=
  (9 ≤ c.toNat && c.toNat ≤ 13) || c.toNat == 32 || c.toNat == 0x85 ||
  c.toNat == 0xA0 || c.toNat == 0x1680 ||
  (0x2000 ≤ c.toNat && c.toNat ≤ 0x200A) || c.toNat == 0x2028 ||
  c.toNat == 0x2029 || c.toNat == 0x202F || c.toNat == 0x205F ||
  c.toNat == 0x3000

/-- Rust `str::trim`: drop Unicode whitespace from both ends. -/
def rustTrim (cs : List Char) : List Char :=
  ((cs.dropWhile rustIsWhitespace).reverse.dropWhile rustIsWhitespace).reverse

/-- Whether the string ends with the two-character suffix `"ms"`
(`str::ends_with("ms")`). -/
def endsWithMS (cs : List Char) : Bool :=
  match cs.reverse with
  | a :: b :: _ => a == 's' && b == 'm'
  | _ => false

/-- Whether the string ends with the character `c` (`str::ends_with(char)`). -/
def endsWithChar (c : Char) (cs : List Char) : Bool :=
  match cs.reverse with
  | a :: _ => a == c
  | [] => false

/-- Helper for `trimEndMS`, working on the reversed string: remove every
leading `'s', 'm'` pair. -/
def stripMSrev : List Char → List Char
  | [] => []
  | [c] => [c]
  | a :: b :: rest =>
      if a = 's' ∧ b = 'm' then stripMSrev rest else a :: b :: rest

/-- Rust `str::trim_end_matches("ms")`: remove every trailing `"ms"`. -/
def trimEndMS (cs : List Char) : List Char :=
  (stripMSrev cs.reverse).reverse

/-- Rust `str::trim_end_matches(c)` for a single character: remove every
trailing occurrence of `c`. -/
def trimEndChar (c : Char) (cs : List Char) : List Char :=
  (cs.reverse.dropWhile (· == c)).reverse

/-- Numeric value of a digit string (most significant digit first). -/
def digitsVal (cs : List Char) : Nat :=
  cs.foldl (fun acc c => acc * 10 + (c.toNat - 48)) 0

/-- An optional leading `'+'` accepted by Rust's integer parser. -/
def stripPlus (cs : List Char) : List Char :=
  match cs with
  | c :: rest => if c = '+' then rest else cs
  | [] => cs

/-- Rust `str::parse::<u64>()`: an optional `'+'` followed by at least one
digit, value below `2 ^ 64`; `none` on anything else (empty, stray
characters, overflow). -/
def parseU64 (cs : List Char) : Option Nat :=
  let ds := stripPlus cs
  if ds.isEmpty then none
  else if ds.all Char.isDigit then
    if digitsVal ds < 2 ^ 64 then some (digitsVal ds) else none
  else none

/-- Function `parse_duration` (main.rs:214-228), returning nanoseconds.  In the
minutes branch `val * 60` is `u64` arithmetic, hence the `% 2 ^ 64`. -/
def parse_duration (s : List Char) : Option Nat :=
  let t := rustTrim s
  if endsWithMS t then
    (parseU64 (trimEndMS t)).map (fun v => v * 1000000)
  else if endsWithChar 's' t then
    (parseU64 (trimEndChar 's' t)).map (fun v => v * 1000000000)
  else if endsWithChar 'm' t then
    (parseU64 (trimEndChar 'm' t)).map (fun v => v * 60 % 2 ^ 64 * 1000000000)
  else none

/-! ## Helper lemmas -/

theorem latencies_of_samples_nil {r : Results} (h : r.samples = []) :
    r.latencies = [] := by
  simp [Results.latencies, h]

theorem percentile_eq_getD (r : Results) (p : ℚ) (h : r.latencies ≠ []) :
    r.percentile p
      = (r.latencies.insertionSort (· ≤ ·)).getD
          (min (Int.floor ((p / 100) * (r.latencies.length : ℚ))).toNat
            (r.latencies.length - 1)) 0 := by
  simp [Results.percentile, List.isEmpty_iff, h]

/-- C1: the claim that every run function records `end_time` before the
channel drain fails: with run duration 10 and a drain that takes 5 units of
wall-clock time, `run_grpc_balance` starts at instant 0 and records
`end_time = 15`, not `start_time + duration = 10`; the run window
`end_time - start_time` includes the drain. -/
theorem C1_counterexample :
    (run_grpc_balance 10 ⟨0, 5, [], [], []⟩).start_time = some 0 ∧
    (run_grpc_balance 10 ⟨0, 5, [], [], []⟩).end_time ≠ some (0 + 10) := by
  exact ⟨rfl, by decide⟩

/-- C1 (amended): in all three run functions, `end_time` is recorded only
after the channel drain completes, so the recorded window is
`duration + drain time`, not the configured duration alone. -/
theorem C1_end_time_after_drain (duration : Nat) (env : RunEnv) :
    (run_grpc_balance duration env).start_time = some env.t0 ∧
    (run_grpc_balance duration env).end_time
      = some (env.t0 + duration + env.drainTime) ∧
    (run_rest_balance duration env).start_time = some env.t0 ∧
    (run_rest_balance duration env).end_time
      = some (env.t0 + duration + env.drainTime) ∧
    (run_grpc_stream duration env).start_time = some env.t0 ∧
    (run_grpc_stream duration env).end_time
      = some (env.t0 + duration + env.drainTime) :=
  ⟨rfl, rfl, rfl, rfl, rfl, rfl⟩

/-- C3: for every run result, `success_count + error_count` equals the total
number of samples. -/
theorem C3_success_plus_error_eq_len (r : Results) :
    r.success_count + r.error_count = r.samples.length := by
  unfold Results.success_count Results.error_count
  induction r.samples with
  | nil => rfl
  | cons s t ih =>
      cases hs : s.success <;>
        simp [List.countP_cons, hs, Nat.add_assoc, Nat.add_comm, Nat.add_left_comm, ih]

/-- C6: a run result with no samples returns zero from every latency
statistic: `percentile p` for every `p`, `avg_latency`, `min_latency`,
`max_latency`. -/
theorem C6_empty_stats_zero (r : Results) (h : r.samples = []) :
    (∀ p : ℚ, r.percentile p = 0) ∧
    r.avg_latency = 0 ∧ r.min_latency = 0 ∧ r.max_latency = 0 := by
  have hl : r.latencies = [] := latencies_of_samples_nil h
  refine ⟨fun p => ?_, ?_, ?_, ?_⟩
  · simp [Results.percentile, hl]
  · simp [Results.avg_latency, hl]
  · rw [Results.min_latency, hl]; rfl
  · rw [Results.max_latency, hl]; rfl

/-- C6 witness: evaluated on the empty run result. -/
theorem C6_witness :
    (⟨[], none, none, [], []⟩ : Results).samples = [] ∧
    (⟨[], none, none, [], []⟩ : Results).percentile 50 = 0 ∧
    (⟨[], none, none, [], []⟩ : Results).avg_latency = 0 ∧
    (⟨[], none, none, [], []⟩ : Results).min_latency = 0 ∧
    (⟨[], none, none, [], []⟩ : Results).max_latency = 0 := by
  have h := C6_empty_stats_zero (⟨[], none, none, [], []⟩ : Results) rfl
  exact ⟨rfl, h.1 50, h.2.1, h.2.2.1, h.2.2.2⟩

/-- C7: `throughput` equals `success_count` divided by the run window in
seconds when both timestamps are set and the window is positive, and is zero
when a timestamp is unset or the window is not positive. -/
theorem C7_throughput (r : Results) :
    (∀ s e, r.start_time = some s → r.end_time = some e → s < e →
      r.throughput = (r.success_count : ℚ) / (((e - s : Nat) : ℚ) / 1000000000)) ∧
    ((r.start_time = none ∨ r.end_time = none ∨
      (∀ s e, r.start_time = some s → r.end_time = some e → e ≤ s)) →
      r.throughput = 0) := by
  constructor
  · intro s e hs he hlt
    have hpos : (0 : ℚ) < ((e - s : Nat) : ℚ) / 1000000000 := by
      have : 0 < e - s := Nat.sub_pos_of_lt hlt
      positivity
    rw [Results.throughput, hs, he]
    simp only [hpos, if_pos]
  · intro h
    rw [Results.throughput]
    rcases hs : r.start_time with _ | s
    · rfl
    rcases he : r.end_time with _ | e
    · rfl
    rcases h with h | h | h
    · exact absurd hs (by simp [h])
    · exact absurd he (by simp [h])
    · have hle : e ≤ s := h s e hs he
      have hz : e - s = 0 := Nat.sub_eq_zero_of_le hle
      simp [hz]

/-- C7 witness: a run with two successful samples over a two-second window
has throughput `2 / 2 = 1`; a run with `end_time` unset has throughput 0. -/
theorem C7_witness :
    (⟨[⟨5, true⟩, ⟨7, true⟩], some 0, some 2000000000, [], []⟩ : Results).start_time = some 0 ∧
    (⟨[⟨5, true⟩, ⟨7, true⟩], some 0, some 2000000000, [], []⟩ : Results).end_time = some 2000000000 ∧
    (0 : Nat) < 2000000000 ∧
    (⟨[⟨5, true⟩, ⟨7, true⟩], some 0, some 2000000000, [], []⟩ : Results).throughput
      = ((⟨[⟨5, true⟩, ⟨7, true⟩], some 0, some 2000000000, [], []⟩ : Results).success_count : ℚ)
        / (((2000000000 - 0 : Nat) : ℚ) / 1000000000) ∧
    (⟨[⟨5, true⟩], some 3, none, [], []⟩ : Results).throughput = 0 := by
  refine ⟨rfl, rfl, by decide, ?_, ?_⟩
  · exact (C7_throughput _).1 0 2000000000 rfl rfl (by decide)
  · exact (C7_throughput _).2 (Or.inr (Or.inl rfl))

/-- C2: `percentile p` returns zero when the successful-sample latency list
is empty; otherwise it returns the entry of the ascending sorted successful
latencies at index `floor((p / 100) * count)` clamped to `count - 1`, where
the sorted list is characterised as any sorted permutation of `latencies`. -/
theorem C2_percentile_nearest_rank (r : Results) (p : ℚ) (l : List Nat)
    (hperm : List.Perm l r.latencies) (hsort : l.Sorted (· ≤ ·)) :
    (r.latencies = [] → r.percentile p = 0) ∧
    (r.latencies ≠ [] →
      r.percentile p
        = l.getD (min (Int.floor ((p / 100) * (r.latencies.length : ℚ))).toNat
            (r.latencies.length - 1)) 0) := by
  have hl : l = r.latencies.insertionSort (· ≤ ·) :=
    List.eq_of_perm_of_sorted
      (hperm.trans (List.perm_insertionSort (· ≤ ·) r.latencies).symm)
      hsort (List.sorted_insertionSort (· ≤ ·) r.latencies)
  constructor
  · intro h
    simp [Results.percentile, h]
  · intro h
    rw [percentile_eq_getD r p h, hl]

/-- C2 witness: on a run with successful latencies `[3, 1]` (and one failed
sample), the sorted list `[1, 3]` with `p = 50` indexes entry `3`. -/
theorem C2_witness :
    List.Perm [1, 3]
      (⟨[⟨3, true⟩, ⟨1, true⟩, ⟨2, false⟩], none, none, [], []⟩ : Results).latencies ∧
    List.Sorted (· ≤ ·) [1, 3] ∧
    (⟨[⟨3, true⟩, ⟨1, true⟩, ⟨2, false⟩], none, none, [], []⟩ : Results).latencies ≠ [] ∧
    (⟨[⟨3, true⟩, ⟨1, true⟩, ⟨2, false⟩], none, none, [], []⟩ : Results).percentile 50
      = List.getD [1, 3]
          (min (Int.floor (((50 : ℚ) / 100)
              * ((⟨[⟨3, true⟩, ⟨1, true⟩, ⟨2, false⟩], none, none, [], []⟩ : Results).latencies.length : ℚ))).toNat
            ((⟨[⟨3, true⟩, ⟨1, true⟩, ⟨2, false⟩], none, none, [], []⟩ : Results).latencies.length - 1)) 0 := by
  refine ⟨by decide, by decide, by decide, ?_⟩
  exact (C2_percentile_nearest_rank
    (⟨[⟨3, true⟩, ⟨1, true⟩, ⟨2, false⟩], none, none, [], []⟩ : Results) 50 [1, 3]
    (by decide) (by decide)).2 (by decide)

/-- C4: when at least one successful sample exists, `percentile 100` equals
`max_latency`. -/
theorem C4_p100_eq_max (r : Results) (h : r.latencies ≠ []) :
    r.percentile 100 = r.max_latency := by
  have hlen0 : 0 < r.latencies.length := List.length_pos.mpr h
  have hperm : List.Perm (r.latencies.insertionSort (· ≤ ·)) r.latencies :=
    List.perm_insertionSort (· ≤ ·) r.latencies
  have hsort : (r.latencies.insertionSort (· ≤ ·)).Sorted (· ≤ ·) :=
    List.sorted_insertionSort (· ≤ ·) r.latencies
  have hlen : (r.latencies.insertionSort (· ≤ ·)).length = r.latencies.length :=
    hperm.length_eq
  have hidx : (Int.floor (((100 : ℚ) / 100) * (r.latencies.length : ℚ))).toNat
      = r.latencies.length := by
    norm_num
  have hmin : min r.latencies.length (r.latencies.length - 1)
      = r.latencies.length - 1 := by omega
  have hlt : r.latencies.length - 1 < (r.latencies.insertionSort (· ≤ ·)).length := by
    omega
  have hgetD : r.percentile 100
      = (r.latencies.insertionSort (· ≤ ·)).get ⟨r.latencies.length - 1, hlt⟩ := by
    rw [percentile_eq_getD r 100 h, hidx, hmin, List.getD_eq_getElem?_getD,
      List.getElem?_eq_getElem hlt, Option.getD_some, List.get_eq_getElem]
  have hmem : (r.latencies.insertionSort (· ≤ ·)).get ⟨r.latencies.length - 1, hlt⟩
      ∈ r.latencies :=
    hperm.subset (List.get_mem _ _ _)
  have hmax : ∀ a ∈ r.latencies,
      a ≤ (r.latencies.insertionSort (· ≤ ·)).get ⟨r.latencies.length - 1, hlt⟩ := by
    intro a ha
    have ha' : a ∈ r.latencies.insertionSort (· ≤ ·) := hperm.mem_iff.mpr ha
    obtain ⟨i, rfl⟩ := List.get_of_mem ha'
    have hile : i.1 ≤ r.latencies.length - 1 := by
      have := i.isLt
      omega
    exact hsort.rel_get_of_le (Fin.le_def.mpr hile)
  have hmaximum : r.latencies.maximum
      = ((r.latencies.insertionSort (· ≤ ·)).get ⟨r.latencies.length - 1, hlt⟩
          : WithBot Nat) :=
    List.maximum_eq_coe_iff.mpr ⟨hmem, hmax⟩
  rw [hgetD, Results.max_latency, hmaximum]
  rfl

/-- C4 witness: evaluated on a run with successful latencies `[2, 9, 4]`,
where both sides equal `9`. -/
theorem C4_witness :
    (⟨[⟨2, true⟩, ⟨9, true⟩, ⟨4, true⟩], none, none, [], []⟩ : Results).latencies ≠ [] ∧
    (⟨[⟨2, true⟩, ⟨9, true⟩, ⟨4, true⟩], none, none, [], []⟩ : Results).percentile 100
      = (⟨[⟨2, true⟩, ⟨9, true⟩, ⟨4, true⟩], none, none, [], []⟩ : Results).max_latency :=
  ⟨by decide,
    C4_p100_eq_max (⟨[⟨2, true⟩, ⟨9, true⟩, ⟨4, true⟩], none, none, [], []⟩ : Results)
      (by decide)⟩

/-- C5: for a fixed run result, `percentile` is monotone non-decreasing in
the percentile argument on `[0, 100]`. -/
theorem C5_percentile_mono (r : Results) (p₁ p₂ : ℚ)
    (h0 : 0 ≤ p₁) (h12 : p₁ ≤ p₂) (h100 : p₂ ≤ 100) :
    r.percentile p₁ ≤ r.percentile p₂ := by
  by_cases hemp : r.latencies = []
  · have h1 : r.percentile p₁ = 0 := by simp [Results.percentile, hemp]
    have h2 : r.percentile p₂ = 0 := by simp [Results.percentile, hemp]
    omega
  · have hlen0 : 0 < r.latencies.length := List.length_pos.mpr hemp
    have hsort : (r.latencies.insertionSort (· ≤ ·)).Sorted (· ≤ ·) :=
      List.sorted_insertionSort (· ≤ ·) r.latencies
    have hlen : (r.latencies.insertionSort (· ≤ ·)).length = r.latencies.length :=
      (List.perm_insertionSort (· ≤ ·) r.latencies).length_eq
    have hmono : (Int.floor ((p₁ / 100) * (r.latencies.length : ℚ))).toNat
        ≤ (Int.floor ((p₂ / 100) * (r.latencies.length : ℚ))).toNat := by
      refine Int.toNat_le_toNat (Int.floor_mono ?_)
      have hn : (0 : ℚ) ≤ (r.latencies.length : ℚ) := by positivity
      have hdiv : p₁ / 100 ≤ p₂ / 100 := by linarith
      exact mul_le_mul_of_nonneg_right hdiv hn
    have hlt₁ : min (Int.floor ((p₁ / 100) * (r.latencies.length : ℚ))).toNat
        (r.latencies.length - 1) < (r.latencies.insertionSort (· ≤ ·)).length := by
      omega
    have hlt₂ : min (Int.floor ((p₂ / 100) * (r.latencies.length : ℚ))).toNat
        (r.latencies.length - 1) < (r.latencies.insertionSort (· ≤ ·)).length := by
      omega
    have hle : min (Int.floor ((p₁ / 100) * (r.latencies.length : ℚ))).toNat
          (r.latencies.length - 1)
        ≤ min (Int.floor ((p₂ / 100) * (r.latencies.length : ℚ))).toNat
          (r.latencies.length - 1) := by
      omega
    rw [percentile_eq_getD r p₁ hemp, percentile_eq_getD r p₂ hemp,
      List.getD_eq_getElem?_getD, List.getD_eq_getElem?_getD,
      List.getElem?_eq_getElem hlt₁, List.getElem?_eq_getElem hlt₂,
      Option.getD_some, Option.getD_some]
    have := hsort.rel_get_of_le (a := ⟨_, hlt₁⟩) (b := ⟨_, hlt₂⟩)
      (Fin.mk_le_mk.mpr hle)
    simpa [List.get_eq_getElem] using this

/-- C5 witness: on a run with successful latencies `[3, 1]`,
`percentile 10 = 1 ≤ 3 = percentile 90`. -/
theorem C5_witness :
    (0 : ℚ) ≤ 10 ∧ (10 : ℚ) ≤ 90 ∧ (90 : ℚ) ≤ 100 ∧
    (⟨[⟨3, true⟩, ⟨1, true⟩], none, none, [], []⟩ : Results).percentile 10
      ≤ (⟨[⟨3, true⟩, ⟨1, true⟩], none, none, [], []⟩ : Results).percentile 90 :=
  ⟨by norm_num, by norm_num, by norm_num,
    C5_percentile_mono (⟨[⟨3, true⟩, ⟨1, true⟩], none, none, [], []⟩ : Results)
      10 90 (by norm_num) (by norm_num) (by norm_num)⟩

theorem flatten_set_perm {α : Type} (ps : List (List α)) (i : Nat) (s : α)
    (rest : List α) (h : ps.get? i = some (s :: rest)) :
    List.Perm (s :: (ps.set i rest).flatten) ps.flatten := by
  induction ps generalizing i with
  | nil => simp at h
  | cons hd tl ih =>
      cases i with
      | zero =>
          simp only [List.get?] at h
          injection h with h
          subst h
          simp
      | succ i =>
          simp only [List.get?] at h
          simp only [List.set, List.flatten_cons]
          exact List.Perm.trans List.perm_middle.symm
            (List.Perm.append_left hd (ih i h))

theorem chanStep_perm {st st' : ChanState} (h : ChanStep st st') :
    List.Perm (st'.collected ++ st'.buffer ++ st'.pending.flatten)
      (st.collected ++ st.buffer ++ st.pending.flatten) := by
  cases h with
  | send i s rest h =>
      have hjoin : List.Perm (s :: (st.pending.set i rest).flatten)
          st.pending.flatten := flatten_set_perm st.pending i s rest h
      have h2 : List.Perm (st.buffer ++ [s] ++ (st.pending.set i rest).flatten)
          (st.buffer ++ st.pending.flatten) := by
        simpa [List.append_assoc] using List.Perm.append_left st.buffer hjoin
      simpa [List.append_assoc] using List.Perm.append_left st.collected h2
  | recv s buf h =>
      simp only [h, List.append_assoc]
      exact List.Perm.refl _

theorem chanReach_perm {st st' : ChanState} (h : ChanReach st st') :
    List.Perm (st'.collected ++ st'.buffer ++ st'.pending.flatten)
      (st.collected ++ st.buffer ++ st.pending.flatten) := by
  induction h with
  | refl => exact List.Perm.refl _
  | tail _ hstep ih => exact List.Perm.trans (chanStep_perm hstep) ih

theorem flatten_eq_nil_of_all_isEmpty {α : Type} {ps : List (List α)}
    (h : ps.all List.isEmpty = true) : ps.flatten = [] := by
  induction ps with
  | nil => rfl
  | cons hd tl ih =>
      simp only [List.all_cons, Bool.and_eq_true] at h
      have hhd : hd = [] := List.isEmpty_iff.mp h.1
      simp [hhd, ih h.2]

/-- C8: drain completeness.  Starting from per-worker produced sample lists
`prods` with an empty channel, any interleaving of sends and receives that
ends with the channel closed and drained (`drainDone`) has collected exactly
the samples produced: the collected count equals the total number of
invocations, and every produced sample appears among the collected ones. -/
theorem C8_drain_complete (prods : List (List Sample)) (st : ChanState)
    (hreach : ChanReach ⟨prods, [], []⟩ st) (hdone : st.drainDone) :
    st.collected.length = (prods.map List.length).sum ∧
    ∀ s ∈ prods.flatten, s ∈ st.collected := by
  have hperm := chanReach_perm hreach
  rw [hdone.2, flatten_eq_nil_of_all_isEmpty hdone.1] at hperm
  simp only [List.append_nil, List.nil_append] at hperm
  constructor
  · rw [hperm.length_eq, List.length_flatten]
  · intro s hs
    exact hperm.mem_iff.mpr hs

/-- C8 witness: one worker produces one sample; after a send and a receive
the channel is drained and the sample was collected. -/
theorem C8_witness :
    (⟨[[]], [], [⟨1, true⟩]⟩ : ChanState).collected.length
      = (([[⟨1, true⟩]] : List (List Sample)).map List.length).sum ∧
    (⟨1, true⟩ : Sample) ∈ (⟨[[]], [], [⟨1, true⟩]⟩ : ChanState).collected := by
  have hstep1 : ChanStep ⟨[[⟨1, true⟩]], [], []⟩ ⟨[[]], [⟨1, true⟩], []⟩ :=
    ChanStep.send ⟨[[⟨1, true⟩]], [], []⟩ 0 ⟨1, true⟩ [] rfl
  have hstep2 : ChanStep ⟨[[]], [⟨1, true⟩], []⟩ ⟨[[]], [], [⟨1, true⟩]⟩ :=
    ChanStep.recv ⟨[[]], [⟨1, true⟩], []⟩ ⟨1, true⟩ [] rfl
  have hreach : ChanReach ⟨[[⟨1, true⟩]], [], []⟩ ⟨[[]], [], [⟨1, true⟩]⟩ :=
    Relation.ReflTransGen.head hstep1 (Relation.ReflTransGen.single hstep2)
  have h := C8_drain_complete [[⟨1, true⟩]] ⟨[[]], [], [⟨1, true⟩]⟩ hreach ⟨rfl, rfl⟩
  exact ⟨h.1, h.2 ⟨1, true⟩ (by decide)⟩

theorem streamWorkerSamples_success (lastEvent : Nat)
    (events : List (Option (Except Unit Nat))) :
    ∀ smp ∈ streamWorkerSamples lastEvent events, smp.success = true := by
  induction events generalizing lastEvent with
  | nil => simp [streamWorkerSamples]
  | cons e rest ih =>
      match e with
      | some (Except.ok t) =>
          intro smp hsmp
          rw [streamWorkerSamples] at hsmp
          rcases List.mem_cons.mp hsmp with h | h
          · rw [h]
          · exact ih t smp h
      | some (Except.error u) => simp [streamWorkerSamples]
      | none => simp [streamWorkerSamples]

/-- C9: every sample a stream worker ever sends to the collector carries
`success = true` (a stream error or end ends the loop without emitting), so
any run result whose samples all came from stream workers has
`error_count = 0`. -/
theorem C9_stream_no_errors
    (workers : List (Nat × List (Option (Except Unit Nat))))
    (collected : List Sample)
    (hsub : ∀ s ∈ collected,
      s ∈ (workers.map (fun w => streamWorkerSamples w.1 w.2)).flatten) :
    (∀ s ∈ (workers.map (fun w => streamWorkerSamples w.1 w.2)).flatten,
      s.success = true) ∧
    (⟨collected, none, none, [], []⟩ : Results).error_count = 0 := by
  have hall : ∀ s ∈ (workers.map (fun w => streamWorkerSamples w.1 w.2)).flatten,
      s.success = true := by
    intro s hs
    rw [List.mem_flatten] at hs
    obtain ⟨l, hl, hsl⟩ := hs
    rw [List.mem_map] at hl
    obtain ⟨w, _, rfl⟩ := hl
    exact streamWorkerSamples_success w.1 w.2 s hsl
  refine ⟨hall, ?_⟩
  rw [Results.error_count, List.countP_eq_zero]
  intro s hs
  have := hall s (hsub s hs)
  simp [this]

/-- C9 witness: one stream worker observing one successful event emits one
`success = true` sample, and the run result built from it has no errors. -/
theorem C9_witness :
    (⟨5, true⟩ : Sample).success = true ∧
    (⟨[⟨5, true⟩], none, none, [], []⟩ : Results).error_count = 0 := by
  have h := C9_stream_no_errors [(0, [some (Except.ok 5)])] [⟨5, true⟩]
    (by decide)
  exact ⟨h.1 ⟨5, true⟩ (by decide), h.2⟩

theorem ne_of_isDigit {c d : Char} (hc : c.isDigit = true)
    (hd : d.isDigit = false) : c ≠ d := by
  intro h
  rw [h, hd] at hc
  exact Bool.false_ne_true hc

theorem rustIsWhitespace_eq_false_of_isDigit {c : Char} (h : c.isDigit = true) :
    rustIsWhitespace c = false := by
  simp only [Char.isDigit, Bool.and_eq_true, decide_eq_true_eq] at h
  have h1 : 48 ≤ c.toNat := h.1
  have h2 : c.toNat ≤ 57 := h.2
  simp only [rustIsWhitespace, Bool.or_eq_false_iff, Bool.and_eq_false_iff,
    beq_eq_false_iff_ne, decide_eq_false_iff_not, not_le, ne_eq]
  omega

theorem dropWhile_eq_self_of_all_false {α : Type} (p : α → Bool) (l : List α)
    (h : ∀ c ∈ l, p c = false) : l.dropWhile p = l := by
  cases l with
  | nil => rfl
  | cons a t => simp [List.dropWhile_cons, h a (List.mem_cons_self a t)]

theorem rustTrim_eq_self {l : List Char}
    (h : ∀ c ∈ l, rustIsWhitespace c = false) : rustTrim l = l := by
  unfold rustTrim
  rw [dropWhile_eq_self_of_all_false _ _ h,
    dropWhile_eq_self_of_all_false _ _ (fun c hc => h c (List.mem_reverse.mp hc)),
    List.reverse_reverse]

theorem stripMSrev_eq_self {l : List Char}
    (h : ∀ c ∈ l, c.isDigit = true) : stripMSrev l = l := by
  match l with
  | [] => rfl
  | [c] => rfl
  | a :: b :: rest =>
      simp only [stripMSrev]
      rw [if_neg]
      rintro ⟨rfl, -⟩
      exact absurd (h _ (List.mem_cons_self _ _)) (by decide)

theorem parseU64_digits {n : List Char} (hne : n ≠ [])
    (hdig : n.all Char.isDigit = true) (hlt : digitsVal n < 2 ^ 64) :
    parseU64 n = some (digitsVal n) := by
  have hdig' : ∀ c ∈ n, c.isDigit = true := List.all_eq_true.mp hdig
  have hplus : stripPlus n = n := by
    cases n with
    | nil => rfl
    | cons c t =>
        simp only [stripPlus]
        rw [if_neg]
        exact ne_of_isDigit (hdig' c (List.mem_cons_self c t)) (by decide)
  unfold parseU64
  simp only [hplus]
  rw [if_neg (by simp [List.isEmpty_iff, hne]), if_pos hdig, if_pos hlt]

theorem endsWithMS_append_ms (n : List Char) :
    endsWithMS (n ++ ['m', 's']) = true := by
  have hrev : (n ++ ['m', 's']).reverse = 's' :: 'm' :: n.reverse := by simp
  rw [endsWithMS, hrev]
  rfl

theorem trimEndMS_append_ms {n : List Char}
    (h : ∀ c ∈ n, c.isDigit = true) : trimEndMS (n ++ ['m', 's']) = n := by
  have hrev : (n ++ ['m', 's']).reverse = 's' :: 'm' :: n.reverse := by simp
  rw [trimEndMS, hrev]
  simp only [stripMSrev, and_self, if_true, if_pos]
  rw [stripMSrev_eq_self (fun c hc => h c (List.mem_reverse.mp hc)),
    List.reverse_reverse]

theorem endsWithMS_append_s {n : List Char}
    (h : ∀ c ∈ n, c.isDigit = true) : endsWithMS (n ++ ['s']) = false := by
  have hrev : (n ++ ['s']).reverse = 's' :: n.reverse := by simp
  rw [endsWithMS, hrev]
  cases hn : n.reverse with
  | nil => rfl
  | cons b t =>
      have hb : b ≠ 'm' :=
        ne_of_isDigit (h b (List.mem_reverse.mp (hn ▸ List.mem_cons_self b t)))
          (by decide)
      simp [hb]

theorem endsWithChar_append_single (c : Char) (n : List Char) :
    endsWithChar c (n ++ [c]) = true := by
  have hrev : (n ++ [c]).reverse = c :: n.reverse := by simp
  rw [endsWithChar, hrev]
  simp

theorem trimEndChar_append_single {c : Char} {n : List Char}
    (h : ∀ d ∈ n, (d == c) = false) : trimEndChar c (n ++ [c]) = n := by
  have hrev : (n ++ [c]).reverse = c :: n.reverse := by simp
  rw [trimEndChar, hrev, List.dropWhile_cons]
  simp only [beq_self_eq_true, if_true, if_pos]
  rw [dropWhile_eq_self_of_all_false _ _ (fun d hd => h d (List.mem_reverse.mp hd)),
    List.reverse_reverse]

theorem endsWithMS_append_m (n : List Char) :
    endsWithMS (n ++ ['m']) = false := by
  have hrev : (n ++ ['m']).reverse = 'm' :: n.reverse := by simp
  rw [endsWithMS, hrev]
  cases n.reverse with
  | nil => rfl
  | cons b t => rfl

theorem endsWithChar_s_append_m (n : List Char) :
    endsWithChar 's' (n ++ ['m']) = false := by
  have hrev : (n ++ ['m']).reverse = 'm' :: n.reverse := by simp
  rw [endsWithChar, hrev]
  rfl

theorem endsWithMS_eq_false_of_not_s {l : List Char}
    (h : endsWithChar 's' l = false) : endsWithMS l = false := by
  rw [endsWithChar] at h
  rw [endsWithMS]
  cases hr : l.reverse with
  | nil => rfl
  | cons a t =>
      rw [hr] at h
      cases t with
      | nil => rfl
      | cons b t2 =>
          simp at h ⊢
          intro ha
          exact absurd ha h

/-- C10 counterexample: the claim quantifies over every string of digits, but
for the 21-digit numeral `2 ^ 64 = 18446744073709551616` the `u64` parse
overflows and `parse_duration("18446744073709551616ms")` is an error, not
`18446744073709551616` milliseconds. -/
theorem C10_counterexample :
    parse_duration
      (['1', '8', '4', '4', '6', '7', '4', '4', '0', '7', '3', '7', '0', '9',
        '5', '5', '1', '6', '1', '6'] ++ ['m', 's']) = none := by
  decide

/-- C10 (amended): for every nonempty digit string `n` whose value fits in
`u64`, `parse_duration` gives the `"ms"` suffix precedence over `"s"`:
`n ++ "ms"` parses as `n` milliseconds, `n ++ "s"` as `n` seconds, and
`n ++ "m"` as `n * 60` seconds (provided `n * 60` also fits in `u64`); any
input whose trimmed form ends in neither `'s'` nor `'m'` is an error. -/
theorem C10_parse_duration_suffixes (n : List Char) (hne : n ≠ [])
    (hdig : n.all Char.isDigit = true) (hlt : digitsVal n < 2 ^ 64) :
    parse_duration (n ++ ['m', 's']) = some (digitsVal n * 1000000) ∧
    parse_duration (n ++ ['s']) = some (digitsVal n * 1000000000) ∧
    (digitsVal n * 60 < 2 ^ 64 →
      parse_duration (n ++ ['m']) = some (digitsVal n * 60 * 1000000000)) ∧
    (∀ s : List Char, endsWithChar 's' (rustTrim s) = false →
      endsWithChar 'm' (rustTrim s) = false → parse_duration s = none) := by
  have hdig' : ∀ c ∈ n, c.isDigit = true := List.all_eq_true.mp hdig
  have hnows : ∀ (extra : List Char), (∀ c ∈ extra, rustIsWhitespace c = false) →
      ∀ c ∈ n ++ extra, rustIsWhitespace c = false := by
    intro extra hex c hc
    rcases List.mem_append.mp hc with h | h
    · exact rustIsWhitespace_eq_false_of_isDigit (hdig' c h)
    · exact hex c h
  refine ⟨?_, ?_, ?_, ?_⟩
  · simp only [parse_duration]
    rw [rustTrim_eq_self (hnows ['m', 's'] (by decide)),
      if_pos (endsWithMS_append_ms n),
      trimEndMS_append_ms hdig', parseU64_digits hne hdig hlt]
    rfl
  · simp only [parse_duration]
    rw [rustTrim_eq_self (hnows ['s'] (by decide)),
      if_neg (by simp [endsWithMS_append_s hdig']),
      if_pos (endsWithChar_append_single 's' n),
      trimEndChar_append_single (c := 's') (fun d hd =>
        beq_eq_false_iff_ne.mpr (ne_of_isDigit (hdig' d hd) (by decide))),
      parseU64_digits hne hdig hlt]
    rfl
  · intro hlt60
    simp only [parse_duration]
    rw [rustTrim_eq_self (hnows ['m'] (by decide)),
      if_neg (by simp [endsWithMS_append_m n]),
      if_neg (by simp [endsWithChar_s_append_m n]),
      if_pos (endsWithChar_append_single 'm' n),
      trimEndChar_append_single (c := 'm') (fun d hd =>
        beq_eq_false_iff_ne.mpr (ne_of_isDigit (hdig' d hd) (by decide))),
      parseU64_digits hne hdig hlt]
    simp only [Option.map_some']
    rw [Nat.mod_eq_of_lt hlt60]
  · intro s h1 h2
    simp only [parse_duration]
    rw [if_neg (by simp [endsWithMS_eq_false_of_not_s h1]),
      if_neg (by simp [h1]), if_neg (by simp [h2])]

/-- C10 witness: evaluated on the digit string `"30"`: `"30ms"` is 30
milliseconds, `"30s"` is 30 seconds, `"30m"` is 1800 seconds. -/
theorem C10_witness :
    (['3', '0'] : List Char) ≠ [] ∧
    (['3', '0'] : List Char).all Char.isDigit = true ∧
    digitsVal ['3', '0'] < 2 ^ 64 ∧
    parse_duration (['3', '0'] ++ ['m', 's']) = some (digitsVal ['3', '0'] * 1000000) ∧
    parse_duration (['3', '0'] ++ ['s']) = some (digitsVal ['3', '0'] * 1000000000) ∧
    parse_duration (['3', '0'] ++ ['m']) = some (digitsVal ['3', '0'] * 60 * 1000000000) := by
  have h := C10_parse_duration_suffixes ['3', '0'] (by decide) (by decide) (by decide)
  exact ⟨by decide, by decide, by decide, h.1, h.2.1, h.2.2.1 (by decide)⟩
